import Mathlib

/-!
# DNS and WHOIS API: model of `main.go` and its properties

A shallow embedding of the resolution pipeline of `main.go`: the cache key and the resolution
cache with its expiry timers, `resolve` with its escalation from UDP to TCP, the
`rateLimiter` middleware, `multiQueryHandler`, and the WHOIS functions
`getWhoisServerFromIANA`, `queryWhoisServer` and `whoisHandler`.

Conventions. Go strings are lists of characters (texts are taken to be valid UTF-8, where
splitting and searching by characters and by bytes agree). The Go type `int` is 64 bits wide and wraps.
Network peers are functions from what is sent to what comes back, with `none` for a transport
error. The loop of `resolve` (`goto Redo`), which the source does not bound, takes a number
of iterations `fuel` and returns `none` when that number is not enough. The loop of
`queryWhoisServer` keeps every connection it opens until the function returns, so it is
bounded by the number of connections that the process can open. Time is a number of
nanoseconds that moves when the event `advance` says so.
-/

namespace DnsWhoisApi

/-! ## Strings and the cache key -/

/-- Go strings, as the list of their characters. -/
abbrev GoString := List Char

/-- The decimal digit `d` (below ten) as a character. -/
def digitChar (d : Nat) : Char := Char.ofNat (48 + d)

/-- Decimal digits of `n`, most significant first; `fuel` bounds the number of digits. -/
def decimalDigits : Nat → Nat → GoString
  | 0, _ => []
  | fuel + 1, n =>
      if n < 10 then [digitChar n]
      else decimalDigits fuel (n / 10) ++ [digitChar (n % 10)]

/-- The verb `%d` of `fmt.Sprintf` on an unsigned integer. -/
def formatUint (n : Nat) : GoString := decimalDigits (n + 1) n

/-- The key built in `resolve`: `fmt.Sprintf("%s-%d", domain, querytype)`. -/
def cacheKey (domain : GoString) (querytype : Nat) : GoString :=
  domain ++ '-' :: formatUint querytype

/-- Value denoted by a list of decimal digit characters. -/
def digitsValue (s : GoString) : Nat :=
  s.foldl (fun acc c => acc * 10 + (c.toNat - 48)) 0

/-! ## The rate limiter -/

/-- Go `int` arithmetic on a 64-bit target: results wrap into [-2^63, 2^63). -/
def wrapInt (x : Int) : Int := (x + 2 ^ 63) % 2 ^ 64 - 2 ^ 63

/-- Outcome of the `rateLimiter` middleware for one request. -/
inductive Verdict where
  | forwarded
  | tooManyRequests
  deriving DecidableEq

/-- The limiter state: the `requestCount` map (a missing key reads as 0) and, per identity,
the number of reset goroutines that are still sleeping. -/
structure LimiterState where
  requestCount : GoString → Int
  pendingResets : GoString → Nat

/-- State at process start: `make(map[string]int)` and no goroutine started. -/
def LimiterState.empty : LimiterState := ⟨fun _ => 0, fun _ => 0⟩

/-- The handler returned by `rateLimiter`, for a request whose `RemoteAddr` is `clientIP`. -/
def rateLimiter (rateLimit : Int) (st : LimiterState) (clientIP : GoString) :
    Verdict × LimiterState :=
  let count := wrapInt (st.requestCount clientIP + 1)
  let counts := Function.update st.requestCount clientIP count
  if count > rateLimit then
    (Verdict.tooManyRequests, ⟨counts, st.pendingResets⟩)
  else
    (Verdict.forwarded,
      ⟨counts, Function.update st.pendingResets clientIP (st.pendingResets clientIP + 1)⟩)

/-- One sleeping reset goroutine of `clientIP` wakes up: `requestCount[clientIP] = 0`.
Nothing happens when no such goroutine is sleeping. -/
def resetFires (st : LimiterState) (clientIP : GoString) : LimiterState :=
  if st.pendingResets clientIP = 0 then st
  else ⟨Function.update st.requestCount clientIP 0,
        Function.update st.pendingResets clientIP (st.pendingResets clientIP - 1)⟩

/-- What can happen to the limiter: a request arrives, or a sleeping reset wakes up. -/
inductive LimiterEvent where
  | request (clientIP : GoString)
  | reset (clientIP : GoString)
  deriving DecidableEq

/-- Runs a sequence of events, logging the verdict of every request with its identity. -/
def serve (rateLimit : Int) (st : LimiterState) :
    List LimiterEvent → List (GoString × Verdict) × LimiterState
  | [] => ([], st)
  | LimiterEvent.request ip :: evs =>
      let r := rateLimiter rateLimit st ip
      let rest := serve rateLimit r.2 evs
      ((ip, r.1) :: rest.1, rest.2)
  | LimiterEvent.reset ip :: evs => serve rateLimit (resetFires st ip) evs

/-- The verdicts received by one identity, in order. -/
def verdictsOf (clientIP : GoString) (log : List (GoString × Verdict)) : List Verdict :=
  (log.filter (fun p => p.1 = clientIP)).map Prod.snd

/-- Number of requests an identity issues in a sequence of events. -/
def requestsOf (clientIP : GoString) (evs : List LimiterEvent) : Nat :=
  evs.count (LimiterEvent.request clientIP)

/-- Verdict given to a request that raises the counter to `k`, absent wrap-around. -/
def verdictAt (rateLimit : Int) (k : Nat) : Verdict :=
  if (k : Int) > rateLimit then Verdict.tooManyRequests else Verdict.forwarded

/-- The invariant of the limiter, for every identity: the counter is in the range of `int`,
a counter other than zero has a reset pending, and the number of pending resets is at least
the minimum of the counter and the limit. -/
def LimiterInv (rateLimit : Int) (st : LimiterState) : Prop :=
  ∀ ip : GoString,
    (-(2 ^ 63) ≤ st.requestCount ip ∧ st.requestCount ip < 2 ^ 63) ∧
    (st.requestCount ip ≠ 0 → 0 < st.pendingResets ip) ∧
    min (st.requestCount ip) rateLimit ≤ (st.pendingResets ip : Int)

/-! ## The resolution cache and `resolve` -/

/-- A resource record (`dns.RR`): header fields and the record data as text. -/
structure RR where
  name : GoString
  rrtype : Nat
  cls : Nat
  ttl : Nat
  rdata : GoString
  deriving DecidableEq

/-- `cacheTTL = 5 * time.Minute`, in nanoseconds (the unit of `time.Duration`). -/
def cacheTTL : Nat := 5 * (60 * 1000000000)

/-- The resolution cache under a controllable clock: the current time in nanoseconds, the
`cache` map, and the callbacks registered with `time.AfterFunc` that have not run yet, each
with the key it deletes and the time at which it is due. -/
structure CacheState where
  now : Nat
  cache : GoString → Option (List RR)
  timers : List (GoString × Nat)

/-- State at process start: an empty map and no timer, at time 0. -/
def CacheState.empty : CacheState := ⟨0, fun _ => none, []⟩

/-- The read `answers, found := cache[cacheKey]` of `resolve`. -/
def lookup (st : CacheState) (key : GoString) : Option (List RR) := st.cache key

/-- The write of `resolve` on success: `cache[cacheKey] = in.Answer`, followed by
`time.AfterFunc(cacheTTL, ...)` registering the deletion of the key. -/
def store (st : CacheState) (key : GoString) (answers : List RR) : CacheState :=
  ⟨st.now, Function.update st.cache key (some answers), st.timers ++ [(key, st.now + cacheTTL)]⟩

/-- The clock moves forward by `dt`: every registered callback that is due by then runs
(`delete(cache, cacheKey)`) and is gone. -/
def advance (st : CacheState) (dt : Nat) : CacheState :=
  ⟨st.now + dt,
   fun key => if st.timers.any (fun t => t.1 = key ∧ t.2 ≤ st.now + dt) then none else st.cache key,
   st.timers.filter (fun t => st.now + dt < t.2)⟩

/-- What happens to the cache over time: a successful `resolve` writes, or time passes. -/
inductive CacheEvent where
  | store (key : GoString) (answers : List RR)
  | advance (dt : Nat)
  deriving DecidableEq

/-- Effect of one event on the cache. -/
def CacheEvent.apply (st : CacheState) : CacheEvent → CacheState
  | CacheEvent.store key answers => DnsWhoisApi.store st key answers
  | CacheEvent.advance dt => DnsWhoisApi.advance st dt

/-- Effect of a sequence of events on the cache. -/
def runCache (st : CacheState) (evs : List CacheEvent) : CacheState :=
  evs.foldl CacheEvent.apply st

/-- Whether an event writes the given key. -/
def CacheEvent.storesKey (key : GoString) : CacheEvent → Bool
  | CacheEvent.store k _ => k = key
  | CacheEvent.advance _ => false

/-- Transport used by `c.Exchange`: `c.Net` is empty (UDP) until it is set to "tcp". -/
inductive Net where
  | udp
  | tcp
  deriving DecidableEq

/-- The part of a DNS response that `resolve` inspects. -/
structure Msg where
  truncated : Bool
  rcode : Nat
  answer : List RR
  deriving DecidableEq

/-- Behaviour of the upstream server during one call of `resolve`: the outcome of the
exchange number `n` (counted from 0) when sent over the given transport; `none` is a
transport error (`err != nil`). -/
abbrev Upstream := Nat → Net → Option Msg

/-- The errors returned by `resolve`. -/
inductive ResolveError where
  /-- Message "DNS query failed with Rcode: %d". -/
  | rcode (code : Nat)
  /-- Message "DNS server could not be reached". -/
  | unreachable
  deriving DecidableEq

/-- `dns.RcodeSuccess`. -/
def rcodeSuccess : Nat := 0

/-- The loop formed by the label `Redo` in `resolve`: exchange number `n` is sent over `net`;
a truncated response sets the transport to TCP and jumps back. Returns the last outcome
(`none` for a transport error) together with the transports of the exchanges made, or
`none` when `fuel` exchanges were not enough to leave the loop. -/
def exchangeLoop (upstream : Upstream) : Nat → Nat → Net → Option (Option Msg × List Net)
  | 0, _, _ => none
  | fuel + 1, n, net =>
      match upstream n net with
      | none => some (none, [net])
      | some m =>
          if m.truncated then
            (exchangeLoop upstream fuel (n + 1) Net.tcp).map (fun r => (r.1, net :: r.2))
          else some (some m, [net])

/-- The part of `resolve` that runs after a cache miss: the exchanges, then on success the
write to the cache and the registration of the expiry callback. -/
def resolveMiss (st : CacheState) (upstream : Upstream) (fuel : Nat) (key : GoString) :
    Option (Except ResolveError (List RR) × CacheState × List Net) :=
  match exchangeLoop upstream fuel 0 Net.udp with
  | none => none
  | some (none, sent) => some (Except.error ResolveError.unreachable, st, sent)
  | some (some m, sent) =>
      if m.rcode ≠ rcodeSuccess then some (Except.error (ResolveError.rcode m.rcode), st, sent)
      else some (Except.ok m.answer, store st key m.answer, sent)

/-- The function `resolve`: result, new cache state and the transports of the exchanges it
made; `none` when `fuel` exchanges were not enough for it to return. -/
def resolve (st : CacheState) (upstream : Upstream) (fuel : Nat) (domain : GoString)
    (querytype : Nat) : Option (Except ResolveError (List RR) × CacheState × List Net) :=
  match lookup st (cacheKey domain querytype) with
  | some answers => some (Except.ok answers, st, [])
  | none => resolveMiss st upstream fuel (cacheKey domain querytype)

/-- Transport of exchange number `n` of one call: UDP first, TCP afterwards. -/
def netAt : Nat → Net
  | 0 => Net.udp
  | _ + 1 => Net.tcp

/-- The record `example.com. 300 IN A 93.184.216.34`. -/
def rrA : RR := ⟨"example.com.".toList, 1, 1, 300, "93.184.216.34".toList⟩

/-- The first two responses are marked truncated, the third carries the record `rrA`. -/
def upstreamTruncatedTwice : Upstream := fun n _ =>
  if n < 2 then some ⟨true, 0, []⟩ else some ⟨false, 0, [rrA]⟩

/-- The first response is marked truncated, the second carries the record `rrA`. -/
def upstreamTruncatedOnce : Upstream := fun n _ =>
  if n < 1 then some ⟨true, 0, []⟩ else some ⟨false, 0, [rrA]⟩

/-- The cache key of (`example.com.`, A). -/
def keyA : GoString := cacheKey "example.com.".toList 1

/-- Upstream answering at once with the record `rrA`. -/
def upstreamAnswersA : Upstream := fun _ _ => some ⟨false, 0, [rrA]⟩

/-! ## WHOIS: text scanning, the bootstrap lookup and the referral walk -/

/-- `strings.Split(s, sep)` for a separator of one character. -/
def splitOn (sep : Char) : GoString → List GoString
  | [] => [[]]
  | c :: cs =>
      if c = sep then [] :: splitOn sep cs
      else
        match splitOn sep cs with
        | [] => [[c]]
        | part :: parts => (c :: part) :: parts

/-- `strings.Contains(s, substr)`. -/
def contains : GoString → GoString → Bool
  | [], substr => substr.isEmpty
  | c :: cs, substr => substr.isPrefixOf (c :: cs) || contains cs substr

/-- `unicode.IsSpace`. -/
def isSpace (c : Char) : Bool :=
  c = '\t' || c = '\n' || c.toNat = 11 || c.toNat = 12 || c = '\r' || c = ' ' ||
  c.toNat = 0x85 || c.toNat = 0xA0 || c.toNat = 0x1680 ||
  (0x2000 ≤ c.toNat && c.toNat ≤ 0x200A) ||
  c.toNat = 0x2028 || c.toNat = 0x2029 || c.toNat = 0x202F || c.toNat = 0x205F ||
  c.toNat = 0x3000

/-- `strings.TrimSpace`. -/
def trimSpace (s : GoString) : GoString :=
  ((s.dropWhile isSpace).reverse.dropWhile isSpace).reverse

/-- `strings.TrimPrefix`. -/
def trimPrefix (s pre : GoString) : GoString :=
  if pre.isPrefixOf s then s.drop pre.length else s

/-- The scan shared by `getWhoisServerFromIANA` and `queryWhoisServer`: the first line that
contains `marker` and splits at ':' into more than one part yields its part of index 1,
trimmed; `none` when the lines are exhausted. -/
def scanField (marker : GoString) : List GoString → Option GoString
  | [] => none
  | line :: lines =>
      if contains line marker then
        match splitOn ':' line with
        | _ :: part :: _ => some (trimSpace part)
        | _ => scanField marker lines
      else scanField marker lines

/-- The part of `getWhoisServerFromIANA` that runs once the reply is read. -/
def parseIanaReply (reply : GoString) : GoString :=
  (scanField "whois:".toList (splitOn '\n' reply)).getD []

/-- The function `getWhoisServerFromIANA`; `iana tld` is the reply of `whois.iana.org:43` to
the request line `tld`, or `none` when connecting or writing fails. -/
def getWhoisServerFromIANA (iana : GoString → Option GoString) (tld : GoString) : GoString :=
  match iana tld with
  | none => []
  | some reply => parseIanaReply reply

/-- One hop of a chain (`WhoisResult`). -/
structure WhoisResult where
  server : GoString
  data : GoString
  deriving DecidableEq

/-- The value of `nextWhoisServer` computed from a response in `queryWhoisServer`. -/
def nextWhoisServer (response : GoString) : GoString :=
  (scanField "Registrar WHOIS Server:".toList (splitOn '\n' response)).getD []

/-- The loop of `queryWhoisServer`. `servers address domain` is what the server at
`address` (port 43) answers to the request line `domain`, or `none` when connecting or
writing fails. Every iteration opens a connection with `net.Dial`, and the
`defer conn.Close()` inside the loop keeps it open until the function returns: the first
argument is the number of connections that the process can still open. With none left
`net.Dial` fails. The result `none` is the `nil` returned when connecting or writing fails. -/
def queryWhoisLoop (servers : GoString → GoString → Option GoString) (domain : GoString) :
    Nat → GoString → List WhoisResult → Option (List WhoisResult)
  | 0, _, _ => none
  | descriptors + 1, whoisServer, results =>
      match servers whoisServer domain with
      | none => none
      | some response =>
          if nextWhoisServer response = [] then
            some (results ++ [⟨whoisServer, response⟩])
          else
            queryWhoisLoop servers domain descriptors (nextWhoisServer response)
              (results ++ [⟨whoisServer, response⟩])

/-- The function `queryWhoisServer`, called while the process can still open `descriptors`
connections; `none` is the result `nil`. -/
def queryWhoisServer (servers : GoString → GoString → Option GoString) (descriptors : Nat)
    (domain whoisServer : GoString) : Option (List WhoisResult) :=
  queryWhoisLoop servers domain descriptors whoisServer []

/-- Character class of `domainRegex`. -/
def isDomainChar (c : Char) : Bool :=
  ('a' ≤ c && c ≤ 'z') || ('A' ≤ c && c ≤ 'Z') || ('0' ≤ c && c ≤ '9') || c = '.' || c = '-'

/-- `isValidDomain`: the regular expression `^[a-zA-Z0-9.-]+$`. -/
def isValidDomain (domain : GoString) : Bool :=
  !domain.isEmpty && domain.all isDomainChar

/-- The two lines of `whoisHandler` that compute `tld`; `none` is the run-time panic of an
index out of range. -/
def topLevelLabel (domain : GoString) : Option GoString :=
  (splitOn '.' (trimPrefix domain "www.".toList)).get? 1

/-- What `whoisHandler` does with a request. -/
inductive WhoisResponse where
  /-- Status 400, "Input string is not a well-formed domain name". -/
  | badRequest
  /-- The handler panics: index out of range. -/
  | indexPanic
  /-- Status 404, "WHOIS server not found". -/
  | serverNotFound
  /-- Status 500, "Failed to retrieve WHOIS data". -/
  | retrievalFailed
  /-- Status 200 with the chain as JSON. -/
  | chain (results : List WhoisResult)
  deriving DecidableEq

/-- The function `whoisHandler`, called while the process can still open `descriptors`
connections for the walk. -/
def whoisHandler (iana : GoString → Option GoString)
    (servers : GoString → GoString → Option GoString) (descriptors : Nat)
    (domain : GoString) : WhoisResponse :=
  if !isValidDomain domain then WhoisResponse.badRequest
  else
    match topLevelLabel domain with
    | none => WhoisResponse.indexPanic
    | some tld =>
        if getWhoisServerFromIANA iana tld = [] then WhoisResponse.serverNotFound
        else
          match queryWhoisServer servers descriptors domain (getWhoisServerFromIANA iana tld) with
          | none => WhoisResponse.retrievalFailed
          | some results => WhoisResponse.chain results

/-- The text between the first and the second ':' of a line (up to the end of the line when
there is no second one). -/
def secondField (line : GoString) : GoString :=
  ((line.dropWhile (fun c => c != ':')).drop 1).takeWhile (fun c => c != ':')

/-- `dns.TypeA`. -/
def typeA : Nat := 1

/-- `dns.TypeNS`. -/
def typeNS : Nat := 2

/-- `dns.TypeCNAME`. -/
def typeCNAME : Nat := 5

/-- `dns.TypeSOA`. -/
def typeSOA : Nat := 6

/-- `dns.TypeMX`. -/
def typeMX : Nat := 15

/-- `dns.TypeTXT`. -/
def typeTXT : Nat := 16

/-- The slice `recordTypes` of `multiQueryHandler`. -/
def recordTypes : List Nat := [typeSOA, typeA, typeCNAME, typeTXT, typeMX, typeNS]

/-- What `multiQueryHandler` does with a request. -/
inductive QueryResponse where
  /-- Status 400, "Input string is not a well-formed domain name". -/
  | notWellFormed
  /-- Status 400, "Input string could not be parsed". -/
  | notParsed
  /-- The call `jsonify(w, r, question, allAnswers, nil, nil)`: the name of the question and
  the answers handed over. -/
  | json (name : GoString) (answer : List RR)
  deriving DecidableEq

/-- The loop `for _, recordType := range recordTypes` of `multiQueryHandler`;
`upstream recordType` is how the upstream server behaves during the call of `resolve` for
that type. `none` when some call of `resolve` does not return within `fuel` exchanges. -/
def multiQueryLoop (upstream : Nat → Upstream) (fuel : Nat) (domain : GoString) :
    List Nat → CacheState → List RR → Option (List RR × CacheState)
  | [], st, allAnswers => some (allAnswers, st)
  | recordType :: rest, st, allAnswers =>
      match resolve st (upstream recordType) fuel domain recordType with
      | none => none
      | some (Except.ok answers, st2, _) =>
          multiQueryLoop upstream fuel domain rest st2 (allAnswers ++ answers)
      | some (Except.error _, st2, _) =>
          multiQueryLoop upstream fuel domain rest st2 allAnswers

/-- The function `multiQueryHandler`, for the URL parameter `param`. The library functions
`dns.Fqdn`, `idna.ToASCII` and `dns.IsDomainName` are parameters. -/
def multiQueryHandler (fqdn : GoString → GoString) (toASCII : GoString → Option GoString)
    (isDomainName : GoString → Bool) (upstream : Nat → Upstream) (fuel : Nat)
    (st : CacheState) (param : GoString) : Option (QueryResponse × CacheState) :=
  if !isValidDomain (fqdn param) then some (QueryResponse.notWellFormed, st)
  else
    match toASCII (fqdn param) with
    | none => some (QueryResponse.notParsed, st)
    | some domain =>
        if isDomainName domain then
          (multiQueryLoop upstream fuel domain recordTypes st []).map
            (fun r => (QueryResponse.json domain r.1, r.2))
        else some (QueryResponse.notWellFormed, st)

/-- The answers a call of `resolve` contributes: its records when it succeeded, nothing
when it returned an error. -/
def answersOf : Except ResolveError (List RR) → List RR
  | Except.ok answers => answers
  | Except.error _ => []

/-- An upstream that has records of type A only: the query of type A is answered with
`rrA`, every other query with the response code 3 (name error). -/
def upstreamOnlyA : Nat → Upstream := fun recordType _ _ =>
  if recordType = typeA then some ⟨false, 0, [rrA]⟩ else some ⟨false, 3, []⟩

/-- `dns.Fqdn` on names without escapes: adds the final dot when it is missing. -/
def addRootDot (s : GoString) : GoString :=
  if s.getLast? = some '.' then s else s ++ ['.']

/-! ## Properties of the cache key -/

theorem digitChar_toNat (d : Nat) (h : d < 10) : (digitChar d).toNat - 48 = d := by
  interval_cases d <;> rfl

theorem digitChar_ne_dash (d : Nat) (h : d < 10) : digitChar d ≠ '-' := by
  interval_cases d <;> decide

theorem digitsValue_append (s : GoString) (c : Char) :
    digitsValue (s ++ [c]) = digitsValue s * 10 + (c.toNat - 48) := by
  simp [digitsValue, List.foldl_append]

theorem digitsValue_decimalDigits : ∀ (fuel n : Nat), n < fuel →
    digitsValue (decimalDigits fuel n) = n := by
  intro fuel
  induction fuel with
  | zero => intro n h; omega
  | succ fuel ih =>
    intro n h
    unfold decimalDigits
    split
    · rename_i hlt
      simp [digitsValue, digitChar_toNat n hlt]
    · rw [digitsValue_append, ih (n / 10) (by omega), digitChar_toNat _ (Nat.mod_lt _ (by decide))]
      omega

theorem dash_not_mem_decimalDigits : ∀ (fuel n : Nat), '-' ∉ decimalDigits fuel n := by
  intro fuel
  induction fuel with
  | zero => intro n; simp [decimalDigits]
  | succ fuel ih =>
    intro n
    unfold decimalDigits
    split
    · rename_i hlt
      simpa using (digitChar_ne_dash n hlt).symm
    · simp only [List.mem_append, List.mem_singleton, not_or]
      exact ⟨ih _, (digitChar_ne_dash _ (Nat.mod_lt _ (by decide))).symm⟩

theorem formatUint_injective (m n : Nat) (h : formatUint m = formatUint n) : m = n := by
  have hm := digitsValue_decimalDigits (m + 1) m (by omega)
  have hn := digitsValue_decimalDigits (n + 1) n (by omega)
  unfold formatUint at h
  rw [h] at hm
  omega

theorem append_sep_cancel (sep : Char) :
    ∀ (a b s t : GoString), sep ∉ s → sep ∉ t → a ++ sep :: s = b ++ sep :: t → a = b ∧ s = t := by
  intro a
  induction a with
  | nil =>
    intro b s t hs ht h
    cases b with
    | nil => simpa using h
    | cons x b =>
      simp only [List.nil_append, List.cons_append, List.cons.injEq] at h
      exact absurd (h.2 ▸ (by simp : sep ∈ b ++ sep :: t)) hs
  | cons x a ih =>
    intro b s t hs ht h
    cases b with
    | nil =>
      simp only [List.nil_append, List.cons_append, List.cons.injEq] at h
      exact absurd (h.2 ▸ (by simp : sep ∈ a ++ sep :: s)) ht
    | cons y b =>
      simp only [List.cons_append, List.cons.injEq] at h
      obtain ⟨hab, hst⟩ := ih b s t hs ht h.2
      exact ⟨by rw [h.1, hab], hst⟩

/-- Claim C9: the cache key `fmt.Sprintf("%s-%d", domain, querytype)` is injective on pairs:
two keys are equal exactly when the domains are equal and the record types are equal, also
for domains that contain '-' and digits. -/
theorem cacheKey_injective (d1 d2 : GoString) (t1 t2 : Nat) :
    cacheKey d1 t1 = cacheKey d2 t2 ↔ d1 = d2 ∧ t1 = t2 := by
  constructor
  · intro h
    obtain ⟨hd, ht⟩ := append_sep_cancel '-' d1 d2 _ _
      (dash_not_mem_decimalDigits _ _) (dash_not_mem_decimalDigits _ _) h
    exact ⟨hd, formatUint_injective _ _ ht⟩
  · rintro ⟨rfl, rfl⟩
    rfl

/-! ## Properties of the rate limiter -/

theorem wrapInt_small (x : Int) (h0 : -(2 ^ 63) ≤ x) (h1 : x < 2 ^ 63) : wrapInt x = x := by
  unfold wrapInt
  omega

theorem rateLimiter_count (rateLimit : Int) (st : LimiterState) (ip : GoString) :
    (rateLimiter rateLimit st ip).2.requestCount
      = Function.update st.requestCount ip (wrapInt (st.requestCount ip + 1)) := by
  unfold rateLimiter
  dsimp only
  split <;> rfl

theorem rateLimiter_verdict (rateLimit : Int) (st : LimiterState) (ip : GoString) :
    (rateLimiter rateLimit st ip).1
      = if wrapInt (st.requestCount ip + 1) > rateLimit then Verdict.tooManyRequests
        else Verdict.forwarded := by
  unfold rateLimiter
  dsimp only
  split <;> rfl

theorem resetFires_count_other (st : LimiterState) (ip other : GoString) (h : ip ≠ other) :
    (resetFires st ip).requestCount other = st.requestCount other := by
  unfold resetFires
  split
  · rfl
  · simp [Function.update, Ne.symm h]

theorem serve_verdicts (rateLimit : Int) (ip : GoString) :
    ∀ (evs : List LimiterEvent) (st : LimiterState) (c : Nat),
      st.requestCount ip = c →
      (c : Int) + requestsOf ip evs < 2 ^ 63 →
      LimiterEvent.reset ip ∉ evs →
      verdictsOf ip (serve rateLimit st evs).1
        = (List.range' (c + 1) (requestsOf ip evs)).map (verdictAt rateLimit) := by
  intro evs
  induction evs with
  | nil => intro st c _ _ _; simp [serve, verdictsOf, requestsOf]
  | cons ev evs ih =>
    intro st c hc hb hn
    have hn' : LimiterEvent.reset ip ∉ evs := fun h => hn (List.mem_cons_of_mem _ h)
    cases ev with
    | request ip' =>
      by_cases hip : ip' = ip
      · subst hip
        have hreq : requestsOf ip' (LimiterEvent.request ip' :: evs) = requestsOf ip' evs + 1 := by
          simp [requestsOf]
        rw [hreq] at hb ⊢
        have hw : wrapInt (st.requestCount ip' + 1) = ((c + 1 : Nat) : Int) := by
          rw [hc, wrapInt_small] <;> push_cast <;> omega
        have hst : (rateLimiter rateLimit st ip').2.requestCount ip' = ((c + 1 : Nat) : Int) := by
          rw [rateLimiter_count, hw]; simp
        have hv : (rateLimiter rateLimit st ip').1 = verdictAt rateLimit (c + 1) := by
          rw [rateLimiter_verdict, hw]; rfl
        have := ih (rateLimiter rateLimit st ip').2 (c + 1) hst (by push_cast; omega) hn'
        simp only [serve, verdictsOf, List.filter_cons, decide_True, if_true, List.map_cons] at this ⊢
        rw [this, hv, List.range'_succ]
        simp
      · have hreq : requestsOf ip (LimiterEvent.request ip' :: evs) = requestsOf ip evs := by
          simp [requestsOf, List.count_cons, hip]
        rw [hreq] at hb ⊢
        have hst : (rateLimiter rateLimit st ip').2.requestCount ip = c := by
          rw [rateLimiter_count]; simp [Function.update, Ne.symm hip, hc]
        have := ih (rateLimiter rateLimit st ip').2 c hst hb hn'
        simp only [serve, verdictsOf, List.filter_cons] at this ⊢
        simp [hip, this]
    | reset ip' =>
      have hip : ip' ≠ ip := by
        rintro rfl
        exact hn (List.mem_cons_self _ _)
      have hreq : requestsOf ip (LimiterEvent.reset ip' :: evs) = requestsOf ip evs := by
        simp [requestsOf, List.count_cons]
      rw [hreq] at hb ⊢
      have hst : (resetFires st ip').requestCount ip = c := by
        rw [resetFires_count_other st ip' ip hip, hc]
      simpa [serve] using ih (resetFires st ip') c hst hb hn'

/-- Claim C1: an identity whose counter is zero issues exactly `limit + 1` requests, among
any requests of other identities and resets of other identities, and no reset of its own
counter fires in between: its first `limit` requests are forwarded to the next handler and
the last one is answered with Too Many Requests and not forwarded. The number of requests
`limit + 1` has to fit the Go type `int` of the counter. -/
theorem rateLimiter_forwards_limit_then_rejects (limit : Nat) (clientIP : GoString)
    (st : LimiterState) (evs : List LimiterEvent)
    (hzero : st.requestCount clientIP = 0)
    (hfits : (limit : Int) + 1 < 2 ^ 63)
    (hnoreset : LimiterEvent.reset clientIP ∉ evs)
    (hreqs : requestsOf clientIP evs = limit + 1) :
    verdictsOf clientIP (serve limit st evs).1
      = List.replicate limit Verdict.forwarded ++ [Verdict.tooManyRequests] := by
  have h := serve_verdicts limit clientIP evs st 0 (by simpa using hzero)
    (by rw [hreqs]; push_cast; omega) hnoreset
  rw [h, hreqs, List.range'_concat, List.map_append]
  congr 1
  · rw [List.eq_replicate_iff]
    refine ⟨by simp, ?_⟩
    intro v hv
    rw [List.mem_map] at hv
    obtain ⟨k, hk, rfl⟩ := hv
    rw [List.mem_range'_1] at hk
    unfold verdictAt
    rw [if_neg]
    have : k ≤ limit := by omega
    exact_mod_cast not_lt.mpr this
  · simp [verdictAt]

/-- Claim C1 at the limit 2: three requests of one identity, with a request and a reset of
another identity in between. -/
theorem rateLimiter_forwards_limit_then_rejects_witness :
    verdictsOf "10.0.0.1:5000".toList
        (serve (2 : Nat) LimiterState.empty
          [LimiterEvent.request "10.0.0.1:5000".toList, LimiterEvent.request "10.0.0.2:6000".toList,
           LimiterEvent.request "10.0.0.1:5000".toList, LimiterEvent.reset "10.0.0.2:6000".toList,
           LimiterEvent.request "10.0.0.1:5000".toList]).1
      = List.replicate 2 Verdict.forwarded ++ [Verdict.tooManyRequests] :=
  rateLimiter_forwards_limit_then_rejects 2 "10.0.0.1:5000".toList LimiterState.empty _
    rfl (by norm_num) (by decide) (by decide)

theorem wrapInt_range (x : Int) : -(2 ^ 63) ≤ wrapInt x ∧ wrapInt x < 2 ^ 63 := by
  unfold wrapInt
  omega

theorem limiterInv_empty (rateLimit : Int) :
    LimiterInv rateLimit LimiterState.empty := by
  intro ip
  simp only [LimiterState.empty]
  refine ⟨by omega, by simp, ?_⟩
  simp

theorem limiterInv_rateLimiter (rateLimit : Int) (h : 1 ≤ rateLimit) (st : LimiterState)
    (ip : GoString) (hinv : LimiterInv rateLimit st) :
    LimiterInv rateLimit (rateLimiter rateLimit st ip).2 := by
  intro other
  obtain ⟨⟨hlo, hhi⟩, hnz, hmin⟩ := hinv other
  by_cases hip : other = ip
  · subst hip
    have hr := wrapInt_range (st.requestCount other + 1)
    unfold rateLimiter
    dsimp only
    split
    · rename_i hgt
      simp only [Function.update_same]
      have hw : wrapInt (st.requestCount other + 1) = st.requestCount other + 1 := by
        unfold wrapInt at hgt ⊢
        omega
      rw [hw] at hgt ⊢
      have hne : st.requestCount other ≠ 0 := by omega
      refine ⟨by omega, fun _ => hnz hne, ?_⟩
      rw [min_def] at hmin ⊢
      split at hmin <;> split <;> omega
    · rename_i hle
      simp only [Function.update_same]
      refine ⟨hr, fun _ => by omega, ?_⟩
      push_cast
      rw [min_def] at hmin ⊢
      unfold wrapInt at hle ⊢
      split at hmin <;> split <;> omega
  · unfold rateLimiter
    dsimp only
    split <;> simp only [Function.update_noteq hip] <;> exact ⟨⟨hlo, hhi⟩, hnz, hmin⟩

theorem limiterInv_resetFires (rateLimit : Int) (h : 1 ≤ rateLimit) (st : LimiterState)
    (ip : GoString) (hinv : LimiterInv rateLimit st) :
    LimiterInv rateLimit (resetFires st ip) := by
  unfold resetFires
  split
  · exact hinv
  · intro other
    obtain ⟨⟨hlo, hhi⟩, hnz, hmin⟩ := hinv other
    by_cases hip : other = ip
    · subst hip
      simp only [Function.update_same]
      refine ⟨by omega, by simp, ?_⟩
      rw [min_def]
      split <;> omega
    · simp only [Function.update_noteq hip]
      exact ⟨⟨hlo, hhi⟩, hnz, hmin⟩

theorem limiterInv_serve (rateLimit : Int) (h : 1 ≤ rateLimit) :
    ∀ (evs : List LimiterEvent) (st : LimiterState),
      LimiterInv rateLimit st → LimiterInv rateLimit (serve rateLimit st evs).2 := by
  intro evs
  induction evs with
  | nil => intro st hst; exact hst
  | cons ev evs ih =>
    intro st hst
    cases ev with
    | request ip => exact ih _ (limiterInv_rateLimiter rateLimit h st ip hst)
    | reset ip => exact ih _ (limiterInv_resetFires rateLimit h st ip hst)

/-- Claim C10: from the empty counter map with no pending reset and with a limit of at least
1, after any sequence of requests and reset firings and for every identity, the number of
pending resets of the identity is at least the minimum of its counter and the limit; a reset
is pending whenever the counter is not zero, and whenever the next request of the identity
would be rejected. -/
theorem rateLimiter_reset_pending_while_counting (rateLimit : Int) (hlimit : 1 ≤ rateLimit)
    (evs : List LimiterEvent) (clientIP : GoString) :
    min ((serve rateLimit LimiterState.empty evs).2.requestCount clientIP) rateLimit
        ≤ ((serve rateLimit LimiterState.empty evs).2.pendingResets clientIP : Int) ∧
    ((serve rateLimit LimiterState.empty evs).2.requestCount clientIP ≠ 0 →
        0 < (serve rateLimit LimiterState.empty evs).2.pendingResets clientIP) ∧
    ((rateLimiter rateLimit (serve rateLimit LimiterState.empty evs).2 clientIP).1
        = Verdict.tooManyRequests →
        0 < (serve rateLimit LimiterState.empty evs).2.pendingResets clientIP) := by
  obtain ⟨⟨hlo, hhi⟩, hnz, hmin⟩ :=
    limiterInv_serve rateLimit hlimit evs _ (limiterInv_empty rateLimit) clientIP
  refine ⟨hmin, hnz, ?_⟩
  intro hrej
  apply hnz
  rw [rateLimiter_verdict] at hrej
  split at hrej
  · rename_i hgt
    unfold wrapInt at hgt
    omega
  · cases hrej

/-- Claim C10 at the limit 1, after two requests of one identity (counter 2, one reset
pending, the next request rejected). -/
theorem rateLimiter_reset_pending_while_counting_witness :
    min ((serve 1 LimiterState.empty
          [LimiterEvent.request "10.0.0.1:5000".toList, LimiterEvent.request "10.0.0.1:5000".toList]).2.requestCount
            "10.0.0.1:5000".toList) 1
        ≤ ((serve 1 LimiterState.empty
          [LimiterEvent.request "10.0.0.1:5000".toList, LimiterEvent.request "10.0.0.1:5000".toList]).2.pendingResets
            "10.0.0.1:5000".toList : Int) ∧
    ((serve 1 LimiterState.empty
          [LimiterEvent.request "10.0.0.1:5000".toList, LimiterEvent.request "10.0.0.1:5000".toList]).2.requestCount
            "10.0.0.1:5000".toList ≠ 0 →
        0 < (serve 1 LimiterState.empty
          [LimiterEvent.request "10.0.0.1:5000".toList, LimiterEvent.request "10.0.0.1:5000".toList]).2.pendingResets
            "10.0.0.1:5000".toList) ∧
    ((rateLimiter 1 (serve 1 LimiterState.empty
          [LimiterEvent.request "10.0.0.1:5000".toList, LimiterEvent.request "10.0.0.1:5000".toList]).2
            "10.0.0.1:5000".toList).1 = Verdict.tooManyRequests →
        0 < (serve 1 LimiterState.empty
          [LimiterEvent.request "10.0.0.1:5000".toList, LimiterEvent.request "10.0.0.1:5000".toList]).2.pendingResets
            "10.0.0.1:5000".toList) :=
  rateLimiter_reset_pending_while_counting 1 (by decide) _ _

/-! ## Properties of `resolve` -/

theorem exchangeLoop_spec (upstream : Upstream) :
    ∀ (k fuel n : Nat) (net : Net),
      (∀ i, i < k → ∃ m, upstream (n + i) (if i = 0 then net else Net.tcp) = some m
          ∧ m.truncated = true) →
      (∀ m, upstream (n + k) (if k = 0 then net else Net.tcp) = some m → m.truncated = false) →
      k < fuel →
      exchangeLoop upstream fuel n net
        = some (upstream (n + k) (if k = 0 then net else Net.tcp), net :: List.replicate k Net.tcp) := by
  intro k
  induction k with
  | zero =>
    intro fuel n net _ hlast hfuel
    obtain ⟨fuel, rfl⟩ : ∃ f, fuel = f + 1 := ⟨fuel - 1, by omega⟩
    simp only [Nat.add_zero, if_true] at hlast ⊢
    unfold exchangeLoop
    cases hup : upstream n net with
    | none => rfl
    | some m => simp [hlast m hup]
  | succ k ih =>
    intro fuel n net htrunc hlast hfuel
    obtain ⟨fuel, rfl⟩ : ∃ f, fuel = f + 1 := ⟨fuel - 1, by omega⟩
    obtain ⟨m, hm, hmt⟩ := htrunc 0 (by omega)
    simp only [Nat.add_zero, if_true] at hm
    have hrec := ih fuel (n + 1) Net.tcp
      (fun i hi => by
        obtain ⟨m', hm', ht'⟩ := htrunc (i + 1) (by omega)
        refine ⟨m', ?_, ht'⟩
        have : n + 1 + i = n + (i + 1) := by omega
        rw [this]
        simpa using hm')
      (fun m' hm' => by
        apply hlast m'
        have : n + 1 + k = n + (k + 1) := by omega
        rw [this] at hm'
        simpa using hm')
      (by omega)
    unfold exchangeLoop
    simp only [hm, hmt, if_true, hrec, Option.map_some']
    have : n + 1 + k = n + (k + 1) := by omega
    simp [this, List.replicate_succ]

theorem netAt_eq (i : Nat) : netAt i = if i = 0 then Net.udp else Net.tcp := by
  cases i <;> rfl

/-- Claim C3, amended: on a cache miss, when the first `k` responses are marked truncated
and the response number `k` is not (or its exchange fails), `resolve` makes exactly `k + 1`
exchanges, the first over UDP and every further one over TCP, and then returns the result
or the error of the last one. With `k = 1`, a truncated UDP response followed by a TCP
response that is not truncated, that is exactly one further exchange; a truncated TCP
response leads to another exchange over TCP. -/
theorem resolve_escalates_while_truncated (st : CacheState) (upstream : Upstream)
    (domain : GoString) (querytype k fuel : Nat)
    (hmiss : lookup st (cacheKey domain querytype) = none)
    (htrunc : ∀ i, i < k → ∃ m, upstream i (netAt i) = some m ∧ m.truncated = true)
    (hlast : ∀ m, upstream k (netAt k) = some m → m.truncated = false)
    (hfuel : k < fuel) :
    resolve st upstream fuel domain querytype
      = match upstream k (netAt k) with
        | none =>
            some (Except.error ResolveError.unreachable, st, Net.udp :: List.replicate k Net.tcp)
        | some m =>
            if m.rcode ≠ rcodeSuccess then
              some (Except.error (ResolveError.rcode m.rcode), st,
                Net.udp :: List.replicate k Net.tcp)
            else
              some (Except.ok m.answer, store st (cacheKey domain querytype) m.answer,
                Net.udp :: List.replicate k Net.tcp) := by
  have h := exchangeLoop_spec upstream k fuel 0 Net.udp
    (fun i hi => by simpa [netAt_eq] using htrunc i hi)
    (fun m hm => hlast m (by simpa [netAt_eq] using hm))
    hfuel
  simp only [Nat.zero_add, ← netAt_eq] at h
  unfold resolve resolveMiss
  rw [hmiss]
  simp only [h]
  cases upstream k (netAt k) <;> rfl

/-- Claim C3, counterexample: the UDP response and the first TCP response are both marked
truncated; `resolve` makes a third exchange (over TCP) and returns its answer. -/
theorem resolve_third_exchange_counterexample :
    lookup CacheState.empty (cacheKey "example.com.".toList 1) = none ∧
    upstreamTruncatedTwice 0 Net.udp = some ⟨true, 0, []⟩ ∧
    upstreamTruncatedTwice 1 Net.tcp = some ⟨true, 0, []⟩ ∧
    resolve CacheState.empty upstreamTruncatedTwice 3 "example.com.".toList 1
      = some (Except.ok [rrA], store CacheState.empty (cacheKey "example.com.".toList 1) [rrA],
          [Net.udp, Net.tcp, Net.tcp]) :=
  ⟨rfl, rfl, rfl, rfl⟩

/-- Claim C3, the amended theorem with `k = 1`: one truncated UDP response, then a TCP
response that is not truncated; two exchanges. -/
theorem resolve_escalates_while_truncated_witness :
    resolve CacheState.empty upstreamTruncatedOnce 2 "example.com.".toList 1
      = some (Except.ok [rrA], store CacheState.empty (cacheKey "example.com.".toList 1) [rrA],
          [Net.udp, Net.tcp]) :=
  resolve_escalates_while_truncated CacheState.empty upstreamTruncatedOnce
    "example.com.".toList 1 1 2 rfl
    (fun i hi => ⟨⟨true, 0, []⟩, by
      have : i = 0 := by omega
      subst this
      exact ⟨rfl, rfl⟩⟩)
    (fun m hm => by
      have : m = ⟨false, 0, [rrA]⟩ := (Option.some.inj hm).symm
      rw [this])
    (by decide)

/-! ## Properties of the resolution cache -/

theorem runCache_cons (st : CacheState) (e : CacheEvent) (evs : List CacheEvent) :
    runCache st (e :: evs) = runCache (e.apply st) evs := rfl

theorem apply_now_le (st : CacheState) (e : CacheEvent) : st.now ≤ (e.apply st).now := by
  cases e with
  | store key answers => exact Nat.le_refl _
  | advance dt => exact Nat.le_add_right _ _

theorem runCache_now_le : ∀ (evs : List CacheEvent) (st : CacheState),
    st.now ≤ (runCache st evs).now := by
  intro evs
  induction evs with
  | nil => intro st; exact Nat.le_refl _
  | cons e evs ih =>
    intro st
    rw [runCache_cons]
    exact Nat.le_trans (apply_now_le st e) (ih _)

theorem runCache_keeps_entry (key : GoString) (recs : List RR) :
    ∀ (evs : List CacheEvent) (st : CacheState),
      st.cache key = some recs →
      (∀ e ∈ evs, CacheEvent.storesKey key e = false) →
      (∀ t ∈ st.timers, t.1 = key → (runCache st evs).now < t.2) →
      (runCache st evs).cache key = some recs := by
  intro evs
  induction evs with
  | nil => intro st h _ _; exact h
  | cons e evs ih =>
    intro st hc hns htim
    rw [runCache_cons] at htim ⊢
    have hnow := runCache_now_le evs (e.apply st)
    apply ih
    · cases e with
      | store k answers =>
        have hk : k ≠ key := by
          have := hns _ (List.mem_cons_self _ _)
          simpa [CacheEvent.storesKey] using this
        simp [CacheEvent.apply, store, Function.update, Ne.symm hk, hc]
      | advance dt =>
        have hnone : (st.timers.any (fun t => decide (t.1 = key ∧ t.2 ≤ st.now + dt))) = false := by
          rw [List.any_eq_false]
          intro t ht
          have := htim t ht
          simp only [CacheEvent.apply, advance] at hnow
          simp only [decide_eq_true_eq, not_and, not_le]
          intro hk
          exact Nat.lt_of_le_of_lt hnow (this hk)
        simp only [CacheEvent.apply, advance, hnone, hc]
        simp
    · intro e2 h2
      exact hns e2 (List.mem_cons_of_mem _ h2)
    · intro t ht hk
      apply htim t _ hk
      cases e with
      | store k answers =>
        simp only [CacheEvent.apply, store, List.mem_append, List.mem_singleton] at ht
        rcases ht with ht | ht
        · exact ht
        · exfalso
          have := hns _ (List.mem_cons_self _ _)
          simp only [CacheEvent.storesKey, decide_eq_false_iff_not] at this
          apply this
          rw [← hk, ht]
      | advance dt =>
        simp only [CacheEvent.apply, advance] at ht
        exact (List.mem_filter.mp ht).1

/-- Claim C5, amended: after a store of a key, and with no other store of that key since, a
lookup of the key returns exactly the stored records at every moment that is before the
cache TTL measured from that store has elapsed and before every expiry timer of an earlier
store of the same key that is still pending comes due. -/
theorem lookup_after_store_until_first_timer (st : CacheState) (key : GoString)
    (answers : List RR) (evs : List CacheEvent)
    (hnostore : ∀ e ∈ evs, CacheEvent.storesKey key e = false)
    (hbefore : (runCache (store st key answers) evs).now < st.now + cacheTTL)
    (hearlier : ∀ t ∈ st.timers, t.1 = key → (runCache (store st key answers) evs).now < t.2) :
    lookup (runCache (store st key answers) evs) key = some answers := by
  unfold lookup
  apply runCache_keeps_entry key answers evs _ _ hnostore
  · intro t ht hk
    simp only [store, List.mem_append, List.mem_singleton] at ht
    rcases ht with ht | ht
    · exact hearlier t ht hk
    · rw [ht]
      exact hbefore
  · simp [store]

theorem runCache_keeps_timer (t : GoString × Nat) :
    ∀ (evs : List CacheEvent) (st : CacheState),
      t ∈ st.timers → (runCache st evs).now < t.2 → t ∈ (runCache st evs).timers := by
  intro evs
  induction evs with
  | nil => intro st h _; exact h
  | cons e evs ih =>
    intro st hmem hlt
    rw [runCache_cons] at hlt ⊢
    apply ih _ _ hlt
    have hnow := runCache_now_le evs (e.apply st)
    cases e with
    | store k answers =>
      simp only [CacheEvent.apply, store, List.mem_append]
      exact Or.inl hmem
    | advance dt =>
      simp only [CacheEvent.apply, advance] at hnow ⊢
      rw [List.mem_filter]
      exact ⟨hmem, by simpa using Nat.lt_of_le_of_lt hnow hlt⟩

theorem advance_fires (st : CacheState) (dt : Nat) (t : GoString × Nat)
    (hmem : t ∈ st.timers) (hdue : t.2 ≤ st.now + dt) : (advance st dt).cache t.1 = none := by
  have : (st.timers.any (fun u => decide (u.1 = t.1 ∧ u.2 ≤ st.now + dt))) = true := by
    rw [List.any_eq_true]
    exact ⟨t, hmem, by simpa using hdue⟩
  simp only [advance, this, if_true]

theorem runCache_stays_absent (key : GoString) :
    ∀ (evs : List CacheEvent) (st : CacheState),
      st.cache key = none →
      (∀ e ∈ evs, CacheEvent.storesKey key e = false) →
      (runCache st evs).cache key = none := by
  intro evs
  induction evs with
  | nil => intro st h _; exact h
  | cons e evs ih =>
    intro st hc hns
    rw [runCache_cons]
    apply ih
    · cases e with
      | store k answers =>
        have hk : k ≠ key := by
          have := hns _ (List.mem_cons_self _ _)
          simpa [CacheEvent.storesKey] using this
        simp [CacheEvent.apply, store, Function.update, Ne.symm hk, hc]
      | advance dt =>
        simp only [CacheEvent.apply, advance, hc]
        split <;> rfl
    · intro e2 h2
      exact hns e2 (List.mem_cons_of_mem _ h2)

/-- Claim C6: a key is stored at time `t`; whatever happens until then, once the clock
reaches `t + cacheTTL` the timer of that store fires, and as long as no store of the key
happens after that firing a lookup of the key returns absent. No competing write is needed. -/
theorem lookup_absent_after_expiry (st : CacheState) (key : GoString) (answers : List RR)
    (evs : List CacheEvent) (dt : Nat) (later : List CacheEvent)
    (hpending : (runCache (store st key answers) evs).now < st.now + cacheTTL)
    (hfires : st.now + cacheTTL ≤ (runCache (store st key answers) evs).now + dt)
    (hnostore : ∀ e ∈ later, CacheEvent.storesKey key e = false) :
    lookup (runCache (advance (runCache (store st key answers) evs) dt) later) key = none := by
  unfold lookup
  apply runCache_stays_absent key later _ _ hnostore
  have hmem : (key, st.now + cacheTTL) ∈ (runCache (store st key answers) evs).timers :=
    runCache_keeps_timer (key, st.now + cacheTTL) evs _ (by simp [store]) hpending
  exact advance_fires _ dt (key, st.now + cacheTTL) hmem hfires

/-- Claim C5, counterexample: two requests for the same key both miss the empty cache; the
first stores at time 0, the second at 1 s. At 300 s, which is 299 s after the second store
and so before its TTL has elapsed, the timer of the first store has deleted the key and the
lookup returns absent. -/
theorem lookup_evicted_by_earlier_timer_counterexample :
    lookup CacheState.empty keyA = none ∧
    resolveMiss CacheState.empty upstreamAnswersA 1 keyA
      = some (Except.ok [rrA], store CacheState.empty keyA [rrA], [Net.udp]) ∧
    resolveMiss (advance (store CacheState.empty keyA [rrA]) 1000000000) upstreamAnswersA 1 keyA
      = some (Except.ok [rrA],
          store (advance (store CacheState.empty keyA [rrA]) 1000000000) keyA [rrA], [Net.udp]) ∧
    299000000000 < cacheTTL ∧
    lookup (advance (store (advance (store CacheState.empty keyA [rrA]) 1000000000) keyA [rrA])
      299000000000) keyA = none := by
  refine ⟨rfl, rfl, rfl, by decide, ?_⟩
  decide

/-- Claim C5, the amended theorem for a store into the empty cache, looked up 299 s later
after a store of another key. -/
theorem lookup_after_store_until_first_timer_witness :
    lookup (runCache (store CacheState.empty keyA [rrA])
      [CacheEvent.advance 1000000000, CacheEvent.store "iana.org.-1".toList [],
       CacheEvent.advance 298000000000]) keyA = some [rrA] :=
  lookup_after_store_until_first_timer CacheState.empty keyA [rrA] _
    (by decide) (by decide) (by simp [CacheState.empty])

/-- Claim C6 for a store into the empty cache at time 0: the lookup after 300 s, a store
of another key and some more time returns absent. -/
theorem lookup_absent_after_expiry_witness :
    lookup (runCache (advance (runCache (store CacheState.empty keyA [rrA])
      [CacheEvent.advance 1000000000]) 299000000000)
      [CacheEvent.store "iana.org.-1".toList [], CacheEvent.advance 5]) keyA = none :=
  lookup_absent_after_expiry CacheState.empty keyA [rrA] _ 299000000000 _
    (by decide) (by decide) (by decide)

/-! ## Properties of the WHOIS bootstrap parsing -/

theorem contains_eq_true_iff (s substr : GoString) : contains s substr = true ↔ substr <:+: s := by
  induction s with
  | nil => simp [contains, List.isEmpty_iff]
  | cons c cs ih =>
    rw [contains, Bool.or_eq_true, ih, List.infix_cons_iff, List.isPrefixOf_iff_prefix]

theorem splitOn_ne_nil (sep : Char) (s : GoString) : splitOn sep s ≠ [] := by
  cases s with
  | nil => simp [splitOn]
  | cons c cs =>
    unfold splitOn
    split
    · simp
    · split <;> simp

theorem splitOn_cons_sep (sep : Char) (cs : GoString) :
    splitOn sep (sep :: cs) = [] :: splitOn sep cs := by
  rw [splitOn, if_pos rfl]

theorem splitOn_cons_other (sep c : Char) (cs : GoString) (h : c ≠ sep) :
    splitOn sep (c :: cs)
      = match splitOn sep cs with
        | [] => [[c]]
        | part :: parts => (c :: part) :: parts := by
  rw [splitOn, if_neg h]

theorem splitOn_eq_cons (sep : Char) : ∀ (s : GoString),
    splitOn sep s = s.takeWhile (fun c => c != sep) ::
      (if sep ∈ s then splitOn sep ((s.dropWhile (fun c => c != sep)).drop 1) else []) := by
  intro s
  induction s with
  | nil => simp [splitOn]
  | cons c cs ih =>
    by_cases hc : c = sep
    · subst hc
      rw [splitOn_cons_sep]
      simp
    · rw [splitOn_cons_other sep c cs hc, ih]
      have hne : (c != sep) = true := by simpa using hc
      simp only [List.takeWhile_cons, hne, if_true, List.dropWhile_cons, List.mem_cons]
      have : (sep = c ∨ sep ∈ cs) ↔ sep ∈ cs := by
        constructor
        · rintro (h | h)
          · exact absurd h.symm hc
          · exact h
        · exact Or.inr
      simp only [this]

theorem splitOn_index_one (line : GoString) (h : ':' ∈ line) :
    ∃ first rest, splitOn ':' line = first :: secondField line :: rest := by
  rw [splitOn_eq_cons, if_pos h]
  rw [splitOn_eq_cons ':' (List.drop 1 _)]
  exact ⟨_, _, rfl⟩

theorem mem_of_infix_mem (c : Char) (marker line : GoString) (hc : c ∈ marker)
    (h : marker <:+: line) : c ∈ line :=
  h.subset hc

theorem scanField_eq_find (marker : GoString) (hcolon : ':' ∈ marker) :
    ∀ lines : List GoString,
      scanField marker lines
        = (lines.find? (fun l => decide (marker <:+: l))).map (fun l => trimSpace (secondField l)) := by
  intro lines
  induction lines with
  | nil => rfl
  | cons line lines ih =>
    unfold scanField
    by_cases hin : marker <:+: line
    · have hcont : contains line marker = true := (contains_eq_true_iff _ _).2 hin
      obtain ⟨first, rest, hsplit⟩ :=
        splitOn_index_one line (mem_of_infix_mem ':' marker line hcolon hin)
      simp [hcont, hsplit, List.find?_cons, hin]
    · have hcont : contains line marker = false := by
        rw [← Bool.not_eq_true, contains_eq_true_iff]
        exact hin
      simp [hcont, List.find?_cons, hin, ih]

theorem dropWhile_append_of_all (p : Char → Bool) :
    ∀ (l r : GoString), (∀ x ∈ l, p x = true) → (l ++ r).dropWhile p = r.dropWhile p := by
  intro l
  induction l with
  | nil => intro r _; rfl
  | cons x l ih =>
    intro r h
    rw [List.cons_append, List.dropWhile_cons, h x (List.mem_cons_self _ _), if_pos rfl]
    exact ih r (fun y hy => h y (List.mem_cons_of_mem _ hy))

theorem takeWhile_of_all (p : Char → Bool) :
    ∀ (l : GoString), (∀ x ∈ l, p x = true) → l.takeWhile p = l := by
  intro l
  induction l with
  | nil => intro _; rfl
  | cons x l ih =>
    intro h
    rw [List.takeWhile_cons, h x (List.mem_cons_self _ _), if_pos rfl,
      ih (fun y hy => h y (List.mem_cons_of_mem _ hy))]

theorem secondField_single_colon (a b : GoString) (ha : ':' ∉ a) (hb : ':' ∉ b) :
    secondField (a ++ "whois:".toList ++ b) = b := by
  have hsplit : a ++ "whois:".toList ++ b = (a ++ "whois".toList) ++ (':' :: b) := by
    simp [String.toList]
  have hne : ∀ (l : GoString), ':' ∉ l → ∀ x ∈ l, (x != ':') = true := by
    intro l hl x hx
    simp only [bne_iff_ne, ne_eq]
    rintro rfl
    exact hl hx
  have hpre : ':' ∉ a ++ "whois".toList := by
    simp only [List.mem_append, not_or]
    exact ⟨ha, by decide⟩
  unfold secondField
  rw [hsplit, dropWhile_append_of_all _ _ _ (hne _ hpre)]
  simp only [List.dropWhile_cons, bne_self_eq_false, Bool.false_eq_true, if_false, List.drop_one,
    List.tail_cons]
  exact takeWhile_of_all _ _ (hne _ hb)

/-- Claim C7, amended: for every reply text, `getWhoisServerFromIANA` (the part after the
reply is read) returns the empty string when no line contains `whois:`, and otherwise the
whitespace-trimmed text between the first ':' of the first such line and the next ':' of that
line (the end of the line when there is none). When that line has no ':' other than the one
of `whois:`, this is the trimmed text that follows `whois:`. An empty result makes
`whoisHandler` answer that the WHOIS server was not found. -/
theorem parseIanaReply_returns_second_field (reply : GoString) :
    (parseIanaReply reply
      = match (splitOn '\n' reply).find? (fun l => decide ("whois:".toList <:+: l)) with
        | none => []
        | some line => trimSpace (secondField line)) ∧
    (∀ a b : GoString,
      (splitOn '\n' reply).find? (fun l => decide ("whois:".toList <:+: l))
        = some (a ++ "whois:".toList ++ b) →
      ':' ∉ a → ':' ∉ b → parseIanaReply reply = trimSpace b) ∧
    (∀ (iana : GoString → Option GoString) (servers : GoString → GoString → Option GoString)
        (descriptors : Nat) (domain tld : GoString),
      isValidDomain domain = true → topLevelLabel domain = some tld →
      iana tld = some reply → parseIanaReply reply = [] →
      whoisHandler iana servers descriptors domain = WhoisResponse.serverNotFound) := by
  have hmain : parseIanaReply reply
      = match (splitOn '\n' reply).find? (fun l => decide ("whois:".toList <:+: l)) with
        | none => []
        | some line => trimSpace (secondField line) := by
    unfold parseIanaReply
    rw [scanField_eq_find _ (by decide)]
    cases (splitOn '\n' reply).find? (fun l => decide ("whois:".toList <:+: l)) <;> rfl
  refine ⟨hmain, ?_, ?_⟩
  · intro a b hfind ha hb
    rw [hmain, hfind]
    simp only
    rw [secondField_single_colon a b ha hb]
  · intro iana servers descriptors domain tld hvalid htld hreply hempty
    unfold whoisHandler
    simp [hvalid, htld, getWhoisServerFromIANA, hreply, hempty]

/-- Claim C7, the amended theorem at a reply in the format of the IANA server. -/
theorem parseIanaReply_returns_second_field_witness :
    parseIanaReply "% IANA WHOIS server\n\nwhois:        whois.verisign-grs.com\n".toList
      = trimSpace "        whois.verisign-grs.com".toList :=
  (parseIanaReply_returns_second_field
    "% IANA WHOIS server\n\nwhois:        whois.verisign-grs.com\n".toList).2.1
    [] "        whois.verisign-grs.com".toList (by decide) (by decide) (by decide)

/-- Claim C7, counterexample: the only line of the reply is `whois: whois.example:4343`. The
trimmed text that follows `whois:` up to the end of the line is `whois.example:4343`, the
function returns `whois.example`. -/
theorem parseIanaReply_stops_at_second_colon_counterexample :
    splitOn '\n' "whois: whois.example:4343".toList = ["whois: whois.example:4343".toList] ∧
    "whois: whois.example:4343".toList = "whois:".toList ++ " whois.example:4343".toList ∧
    trimSpace " whois.example:4343".toList = "whois.example:4343".toList ∧
    parseIanaReply "whois: whois.example:4343".toList = "whois.example".toList ∧
    parseIanaReply "whois: whois.example:4343".toList ≠ trimSpace " whois.example:4343".toList := by
  decide

/-! ## Properties of the WHOIS referral walk -/

theorem multiQueryLoop_cons (upstream : Nat → Upstream) (fuel : Nat) (domain : GoString)
    (recordType : Nat) (rest : List Nat) (st st2 : CacheState) (allAnswers : List RR)
    (outcome : Except ResolveError (List RR)) (sent : List Net)
    (h : resolve st (upstream recordType) fuel domain recordType = some (outcome, st2, sent)) :
    multiQueryLoop upstream fuel domain (recordType :: rest) st allAnswers
      = multiQueryLoop upstream fuel domain rest st2 (allAnswers ++ answersOf outcome) := by
  rw [multiQueryLoop, h]
  cases outcome with
  | ok answers => rfl
  | error e => simp [answersOf]

/-- Claim C4: for a domain that passes the validation of `multiQueryHandler`, and whatever
the six calls of `resolve` return, the answers handed to `jsonify` are the concatenation, in
the order SOA, A, CNAME, TXT, MX, NS, of the answers of the calls that succeeded; a call that
failed contributes nothing and the handler still answers. When only the call for A succeeds,
with one record, the answers are exactly that record. -/
theorem multiQueryHandler_concatenates_successes
    (fqdn : GoString → GoString) (toASCII : GoString → Option GoString)
    (isDomainName : GoString → Bool) (upstream : Nat → Upstream) (fuel : Nat)
    (st s1 s2 s3 s4 s5 s6 : CacheState) (param domain : GoString)
    (o1 o2 o3 o4 o5 o6 : Except ResolveError (List RR)) (x1 x2 x3 x4 x5 x6 : List Net)
    (hvalid : isValidDomain (fqdn param) = true)
    (hascii : toASCII (fqdn param) = some domain)
    (hname : isDomainName domain = true)
    (h1 : resolve st (upstream typeSOA) fuel domain typeSOA = some (o1, s1, x1))
    (h2 : resolve s1 (upstream typeA) fuel domain typeA = some (o2, s2, x2))
    (h3 : resolve s2 (upstream typeCNAME) fuel domain typeCNAME = some (o3, s3, x3))
    (h4 : resolve s3 (upstream typeTXT) fuel domain typeTXT = some (o4, s4, x4))
    (h5 : resolve s4 (upstream typeMX) fuel domain typeMX = some (o5, s5, x5))
    (h6 : resolve s5 (upstream typeNS) fuel domain typeNS = some (o6, s6, x6)) :
    multiQueryHandler fqdn toASCII isDomainName upstream fuel st param
        = some (QueryResponse.json domain
            (answersOf o1 ++ answersOf o2 ++ answersOf o3 ++ answersOf o4 ++ answersOf o5
              ++ answersOf o6), s6) ∧
    (∀ (r : RR) (e1 e3 e4 e5 e6 : ResolveError),
        o1 = Except.error e1 → o2 = Except.ok [r] → o3 = Except.error e3 →
        o4 = Except.error e4 → o5 = Except.error e5 → o6 = Except.error e6 →
        multiQueryHandler fqdn toASCII isDomainName upstream fuel st param
          = some (QueryResponse.json domain [r], s6)) := by
  have hmain : multiQueryHandler fqdn toASCII isDomainName upstream fuel st param
        = some (QueryResponse.json domain
            (answersOf o1 ++ answersOf o2 ++ answersOf o3 ++ answersOf o4 ++ answersOf o5
              ++ answersOf o6), s6) := by
    unfold multiQueryHandler
    simp only [hvalid, hascii, hname, Bool.not_true, if_true, recordTypes]
    rw [multiQueryLoop_cons upstream fuel domain _ _ _ _ _ _ _ h1,
      multiQueryLoop_cons upstream fuel domain _ _ _ _ _ _ _ h2,
      multiQueryLoop_cons upstream fuel domain _ _ _ _ _ _ _ h3,
      multiQueryLoop_cons upstream fuel domain _ _ _ _ _ _ _ h4,
      multiQueryLoop_cons upstream fuel domain _ _ _ _ _ _ _ h5,
      multiQueryLoop_cons upstream fuel domain _ _ _ _ _ _ _ h6]
    simp [multiQueryLoop]
  refine ⟨hmain, ?_⟩
  intro r e1 e3 e4 e5 e6 q1 q2 q3 q4 q5 q6
  rw [hmain, q1, q2, q3, q4, q5, q6]
  rfl

/-- Claim C4 for `example.com` against an upstream that has an A record only. -/
theorem multiQueryHandler_concatenates_successes_witness :
    multiQueryHandler addRootDot some (fun _ => true) upstreamOnlyA 1 CacheState.empty
        "example.com".toList
      = some (QueryResponse.json "example.com.".toList [rrA],
          store CacheState.empty (cacheKey "example.com.".toList typeA) [rrA]) :=
  (multiQueryHandler_concatenates_successes addRootDot some (fun _ => true) upstreamOnlyA 1
    CacheState.empty CacheState.empty
    (store CacheState.empty (cacheKey "example.com.".toList typeA) [rrA])
    (store CacheState.empty (cacheKey "example.com.".toList typeA) [rrA])
    (store CacheState.empty (cacheKey "example.com.".toList typeA) [rrA])
    (store CacheState.empty (cacheKey "example.com.".toList typeA) [rrA])
    (store CacheState.empty (cacheKey "example.com.".toList typeA) [rrA])
    "example.com".toList "example.com.".toList
    (Except.error (ResolveError.rcode 3)) (Except.ok [rrA]) (Except.error (ResolveError.rcode 3))
    (Except.error (ResolveError.rcode 3)) (Except.error (ResolveError.rcode 3))
    (Except.error (ResolveError.rcode 3))
    [Net.udp] [Net.udp] [Net.udp] [Net.udp] [Net.udp] [Net.udp]
    rfl rfl rfl rfl rfl rfl rfl rfl rfl).1

theorem topLevelLabel_isSome_iff (domain : GoString) :
    (topLevelLabel domain).isSome = true ↔ '.' ∈ trimPrefix domain "www.".toList := by
  unfold topLevelLabel
  generalize trimPrefix domain "www.".toList = s
  rw [splitOn_eq_cons]
  by_cases h : '.' ∈ s
  · rw [if_pos h, splitOn_eq_cons '.' (List.drop 1 _)]
    simp [h]
  · rw [if_neg h]
    simp [h]

/-- Claim C8, failing input: the domain `localhost` is accepted by `isValidDomain`, splits
at '.' into one segment only, and the index 1 of `whoisHandler` is out of range. -/
theorem whoisHandler_index_out_of_range :
    isValidDomain "localhost".toList = true ∧
    splitOn '.' (trimPrefix "localhost".toList "www.".toList) = ["localhost".toList] ∧
    topLevelLabel "localhost".toList = none ∧
    (∀ iana servers descriptors,
      whoisHandler iana servers descriptors "localhost".toList = WhoisResponse.indexPanic) :=
  ⟨by decide, by decide, by decide, fun _ _ _ => rfl⟩

/-! ## The model on concrete inputs -/

theorem cacheKey_eval : cacheKey "example.com.".toList 16 = "example.com.-16".toList := by
  decide

theorem formatUint_eval : formatUint 0 = "0".toList ∧ formatUint 65535 = "65535".toList := by
  decide

theorem splitOn_eval :
    splitOn '.' "a.b.c".toList = ["a".toList, "b".toList, "c".toList] ∧
    splitOn '.' [] = [[]] ∧
    splitOn '.' ".a..".toList = [[], "a".toList, [], []] := by
  decide

theorem trimSpace_eval : trimSpace "  whois.nic.example \r".toList = "whois.nic.example".toList := by
  decide

theorem parseIanaReply_eval :
    parseIanaReply "% IANA WHOIS server\nrefer:   whois.verisign-grs.com\n\ndomain:   COM\nwhois:        whois.verisign-grs.com\r\nstatus:   ACTIVE\n".toList
      = "whois.verisign-grs.com".toList ∧
    parseIanaReply "domain:   COM\nstatus:   ACTIVE\n".toList = [] := by
  decide

theorem topLevelLabel_eval :
    topLevelLabel "www.example.com".toList = some "com".toList ∧
    topLevelLabel "example.com".toList = some "com".toList ∧
    topLevelLabel "a.b.example.com".toList = some "b".toList := by
  decide

theorem isValidDomain_eval :
    isValidDomain "example.com".toList = true ∧ isValidDomain [] = false ∧
    isValidDomain "exa mple.com".toList = false := by
  decide

end DnsWhoisApi
